import Mathlib

/-!
Verification of the template/instance synchronization tool
(sync_cookiecutter_template.py).

The development shallow-embeds the script: pure string helpers
(make_maps, substitute, relpath_substitute, is_binary) are translated
directly; the filesystem is an association list from relative paths
(component lists) to file observations; the body of main's two walk
passes becomes an explicit fold over that list, threading the template
tree state and a chronological trace of observable actions (diff
printing, binary-change notices, writes).  Python exceptions raised by
per-file reads/decodes are modelled with Except; a raised exception
stops the fold, mirroring the uncaught propagation in the script.
-/

/-- A relative path, as its sequence of components (Path.parts). -/
abbrev RelPath := List String

/-- Observations the script can make of one regular file:
its raw bytes, the result of decoding it as UTF-8 (none when the bytes
are not valid UTF-8, in which case read_text raises), and whether
opening/reading the file raises (permission error). -/
structure File where
  bytes : List Nat
  textDec : Option String
  readErr : Bool
deriving DecidableEq

instance : Inhabited File := ⟨{ bytes := [], textDec := none, readErr := false }⟩

/-- A directory tree: association list from relative path to file, in
the deterministic order os.walk enumerates the files of one run. -/
abbrev Fs := List (RelPath × File)

/-- Existence / content lookup under a root (Path.is_file plus reads). -/
def lookupA : Fs → RelPath → Option File
  | [], _ => none
  | (q, f) :: rest, p => if q = p then some f else lookupA rest p

/-- Overwrite the file stored at an existing path; never creates. -/
def writeFs : Fs → RelPath → File → Fs
  | [], _, _ => []
  | (q, g) :: rest, p, f => if q = p then (q, f) :: rest else (q, g) :: writeFs rest p f

/-- TEXT_CHUNK = 16 * 1024: bytes read to detect binary files. -/
def TEXT_CHUNK : Nat := 16 * 1024

/-- is_binary: read the first TEXT_CHUNK bytes and look for a NUL byte;
any exception while reading makes the file count as binary. -/
def is_binary (f : File) : Bool :=
  if f.readErr then true else (f.bytes.take TEXT_CHUNK).contains 0

/-- Path.read_bytes: raises when the file cannot be read. -/
def read_bytes (f : File) : Except Unit (List Nat) :=
  if f.readErr then .error () else .ok f.bytes

/-- Path.read_text(encoding="utf-8"): raises on a read error and on a
UTF-8 decode error. -/
def read_text (f : File) : Except Unit String :=
  if f.readErr then .error ()
  else match f.textDec with
    | some s => .ok s
    | none => .error ()

/-- One step of Python str.replace: leftmost-first, non-overlapping,
global replacement of a non-empty pattern.  The fuel argument is only
a structural-termination device: every iteration consumes at least one
character, so fuel equal to the string length never runs out. -/
def pyReplaceAux (pat dst : List Char) : Nat → List Char → List Char
  | _, [] => []
  | 0, l => l
  | fuel + 1, c :: rest =>
    if pat ≠ [] ∧ pat.isPrefixOf (c :: rest) then
      dst ++ pyReplaceAux pat dst fuel (rest.drop (pat.length - 1))
    else c :: pyReplaceAux pat dst fuel rest

/-- Python str.replace(pat, dst), including the empty-pattern case
(the replacement is inserted before every character and at the end). -/
def pyReplace (s pat dst : List Char) : List Char :=
  if pat = [] then dst ++ s.flatMap (fun c => c :: dst)
  else pyReplaceAux pat dst s.length s

/-- str.replace lifted to String. -/
def substituteOne (s pat dst : String) : String :=
  ⟨pyReplace s.data pat.data dst.data⟩

/-- substitute: plain, order-preserving replace on a text buffer,
trying the mapping's pairs in table order. -/
def substitute (text : String) (mapping : List (String × String)) : String :=
  mapping.foldl (fun acc p => substituteOne acc p.1 p.2) text

/-- relpath_substitute: apply the mapping to every path component. -/
def relpath_substitute (rel : RelPath) (mapping : List (String × String)) : RelPath :=
  rel.map (fun part => substitute part mapping)

/-- spec.split("=", 1) when "=" occurs in spec: the part before the
first '=' and the part after it. -/
def splitEqChars : List Char → Option (List Char × List Char)
  | [] => none
  | c :: rest =>
    if c = '=' then some ([], rest)
    else match splitEqChars rest with
      | none => none
      | some (a, b) => some (c :: a, b)

/-- Parse one NAME=VALUE argument; none when '=' is absent. -/
def splitVar (s : String) : Option (String × String) :=
  match splitEqChars s.data with
  | none => none
  | some (a, b) => some (⟨a⟩, ⟨b⟩)

/-- The placeholder derived from a variable name. -/
def placeholderOf (name : String) : String :=
  "\x7b\x7bcookiecutter." ++ name ++ "\x7d\x7d"

/-- Python dict assignment d[k] = v on an insertion-ordered
association list: update in place when the key exists, else append. -/
def dictInsert (d : List (String × String)) (k v : String) : List (String × String) :=
  if d.any (fun p => p.1 = k) then
    d.map (fun p => if p.1 = k then (p.1, v) else p)
  else d ++ [(k, v)]

/-- Comparison used to sort the tables: descending key length
(sorted(..., key=lambda t: len(t[0]), reverse=True)). -/
def lenGE (a b : String × String) : Prop := b.1.length ≤ a.1.length

instance : DecidableRel lenGE := fun a b =>
  inferInstanceAs (Decidable (b.1.length ≤ a.1.length))

instance : IsTotal (String × String) lenGE :=
  ⟨fun a b => by unfold lenGE; exact Nat.le_total b.1.length a.1.length⟩

instance : IsTrans (String × String) lenGE :=
  ⟨fun _ _ _ h1 h2 => by unfold lenGE at *; exact Nat.le_trans h2 h1⟩

/-- The loop body of make_maps: build both insertion-ordered dicts,
exiting on an argument without '='. -/
def make_maps_loop :
    List String → List (String × String) → List (String × String) →
    Except String (List (String × String) × List (String × String))
  | [], render2tpl, tpl2render => .ok (render2tpl, tpl2render)
  | spec :: rest, render2tpl, tpl2render =>
    match splitVar spec with
    | none => .error ("--var expects NAME=VALUE, got " ++ spec)
    | some (name, value) =>
      make_maps_loop rest
        (dictInsert render2tpl value (placeholderOf name))
        (dictInsert tpl2render (placeholderOf name) value)

/-- make_maps: the two mappings, each independently re-sorted
longest-key-first with a stable sort (Python sorted is stable). -/
def make_maps (specs : List String) :
    Except String (List (String × String) × List (String × String)) :=
  (make_maps_loop specs [] []).map
    (fun p => (List.insertionSort lenGE p.1, List.insertionSort lenGE p.2))

/-- Observable console/filesystem actions of one run, in order. -/
inductive Event where
  | printDiff (rel : RelPath) (old new : String)
  | printBinaryNotice (rel : RelPath)
  | writeText (rel : RelPath) (s : String)
  | writeBytes (rel : RelPath) (bs : List Nat)
deriving DecidableEq

/-- State threaded through pass 1: the template tree, the trace of
events so far, and the unmapped list. -/
structure PassState where
  tpl : Fs
  events : List Event
  unmapped : List RelPath
deriving DecidableEq

/-- The file produced by tpl_path.write_text(new_text): its bytes are
the UTF-8 encoding of the written text, which decodes back to it. -/
def charUtf8 (c : Char) : List Nat :=
  let n := c.toNat
  if n < 128 then [n]
  else if n < 2048 then [192 + n / 64, 128 + n % 64]
  else if n < 65536 then [224 + n / 4096, 128 + (n / 64) % 64, 128 + n % 64]
  else [240 + n / 262144, 128 + (n / 4096) % 64, 128 + (n / 64) % 64, 128 + n % 64]

/-- UTF-8 encoding of a string, as its byte list. -/
def utf8Bytes (s : String) : List Nat := s.data.flatMap charUtf8

/-- Result of write_text(s) on the template file. -/
def text_written (s : String) : File :=
  { bytes := utf8Bytes s, textDec := some s, readErr := false }

/-- Result of write_bytes(exp_bytes) on the template file: its bytes
(and hence their decode result) are those of the expanded file. -/
def bytes_written (src : File) : File :=
  { bytes := src.bytes, textDec := src.textDec, readErr := false }

/-- Lines 179-193 of main: reconcile one expanded file that has a
template counterpart and is not README-exempt. -/
def reconcile (render2tpl : List (String × String)) (diff_only : Bool)
    (st : PassState) (tpl_rel : RelPath) (expFile tplFile : File) :
    Except Unit PassState :=
  if is_binary expFile then
    match read_bytes expFile with
    | .error e => .error e
    | .ok exp_bytes =>
      match read_bytes tplFile with
      | .error e => .error e
      | .ok tpl_bytes =>
        if tpl_bytes ≠ exp_bytes then
          if diff_only then
            .ok { st with events := st.events ++ [.printBinaryNotice tpl_rel] }
          else
            .ok { st with
                  tpl := writeFs st.tpl tpl_rel (bytes_written expFile),
                  events := st.events ++ [.writeBytes tpl_rel exp_bytes] }
        else .ok st
  else
    match read_text expFile with
    | .error e => .error e
    | .ok text =>
      let new_text := substitute text render2tpl
      match read_text tplFile with
      | .error e => .error e
      | .ok old_text =>
        if old_text ≠ new_text then
          if diff_only then
            .ok { st with events := st.events ++ [.printDiff tpl_rel old_text new_text] }
          else
            .ok { st with
                  tpl := writeFs st.tpl tpl_rel (text_written new_text),
                  events := st.events ++
                    [.printDiff tpl_rel old_text new_text, .writeText tpl_rel new_text] }
        else .ok st

/-- The body of pass 1 for one expanded-tree file (lines 162-193):
translate the path, handle the no-counterpart and README cases, then
reconcile. -/
def step (render2tpl : List (String × String)) (diff_only : Bool)
    (st : PassState) (e : RelPath × File) : Except Unit PassState :=
  let tpl_rel := relpath_substitute e.1 render2tpl
  match lookupA st.tpl tpl_rel with
  | none =>
    if (".venv") ∉ e.1 ∧ (".mypy_cache") ∉ e.1 then
      .ok { st with unmapped := st.unmapped ++ [e.1] }
    else .ok st
  | some tplFile =>
    if e.1.getLast? = some ("README.md") then .ok st
    else reconcile render2tpl diff_only st tpl_rel e.2 tplFile

/-- Pass 1: walk the expanded tree in order; an uncaught per-file
exception stops the walk, leaving the state reached so far (true in
the second component means the run crashed). -/
def pass1 (render2tpl : List (String × String)) (diff_only : Bool)
    (st : PassState) : List (RelPath × File) → PassState × Bool
  | [] => (st, false)
  | e :: rest =>
    match step render2tpl diff_only st e with
    | .ok st' => pass1 render2tpl diff_only st' rest
    | .error _ => (st, true)

/-- Pass 2 (lines 196-202): every template file whose translated
relative path has no counterpart file in the expanded tree, in walk
order.  No exclusion filter is applied here. -/
def pass2 (tpl2render : List (String × String)) (tpl expDir : Fs) : List RelPath :=
  tpl.filterMap (fun e =>
    if lookupA expDir (relpath_substitute e.1 tpl2render) = none then some e.1 else none)

/-- Everything main produces after the maps are built. -/
structure RunResult where
  tpl : Fs
  events : List Event
  unmapped : List RelPath
  missing : List RelPath
  crashed : Bool
deriving DecidableEq

/-- The body of main after make_maps: pass 1 over the expanded tree,
then (when pass 1 did not crash) pass 2 over the template tree. -/
def sync (render2tpl tpl2render : List (String × String))
    (tpl expDir : Fs) (diff_only : Bool) : RunResult :=
  match pass1 render2tpl diff_only { tpl := tpl, events := [], unmapped := [] } expDir with
  | (st, true) =>
    { tpl := st.tpl, events := st.events, unmapped := st.unmapped,
      missing := [], crashed := true }
  | (st, false) =>
    { tpl := st.tpl, events := st.events, unmapped := st.unmapped,
      missing := pass2 tpl2render st.tpl expDir, crashed := false }

/-- main: build the maps from the --var arguments (sys.exit on a bad
argument, before any tree is touched), then run both passes. -/
def runSync (specs : List String) (tpl expDir : Fs) (diff_only : Bool) :
    Except String RunResult :=
  match make_maps specs with
  | .error e => .error e
  | .ok (render2tpl, tpl2render) => .ok (sync render2tpl tpl2render tpl expDir diff_only)

/-- A text file as stored on disk: bytes are the UTF-8 encoding of its
content, which decodes back to that content; reading succeeds. -/
def textFile (s : String) : File :=
  { bytes := utf8Bytes s, textDec := some s, readErr := false }

/-- A binary file as stored on disk (bytes contain a NUL in the probe
window for the inputs used below); dec records its decode result. -/
def binFile (bs : List Nat) (dec : Option String) : File :=
  { bytes := bs, textDec := dec, readErr := false }

/-! ### Basic lemmas about the filesystem model -/

theorem lookupA_cons (q : RelPath) (g : File) (rest : Fs) (p : RelPath) :
    lookupA ((q, g) :: rest) p = if q = p then some g else lookupA rest p := rfl

theorem writeFs_cons (q : RelPath) (g : File) (rest : Fs) (p : RelPath) (f : File) :
    writeFs ((q, g) :: rest) p f =
      if q = p then (q, f) :: rest else (q, g) :: writeFs rest p f := rfl

theorem writeFs_map_fst (fs : Fs) (p : RelPath) (f : File) :
    (writeFs fs p f).map Prod.fst = fs.map Prod.fst := by
  induction fs with
  | nil => rfl
  | cons e rest ih =>
    obtain ⟨q, g⟩ := e
    rw [writeFs_cons]
    by_cases hq : q = p
    · rw [if_pos hq]
      rfl
    · rw [if_neg hq, List.map_cons, List.map_cons, ih]

theorem lookupA_eq_none_iff (fs : Fs) (p : RelPath) :
    lookupA fs p = none ↔ p ∉ fs.map Prod.fst := by
  induction fs with
  | nil => simp [lookupA]
  | cons e rest ih =>
    obtain ⟨q, g⟩ := e
    rw [lookupA_cons]
    by_cases hq : q = p
    · simp [hq]
    · simp [hq, ih, Ne.symm hq]

theorem lookupA_writeFs_self (fs : Fs) (p : RelPath) (f g : File)
    (h : lookupA fs p = some g) : lookupA (writeFs fs p f) p = some f := by
  induction fs with
  | nil => simp [lookupA] at h
  | cons e rest ih =>
    obtain ⟨q, g'⟩ := e
    rw [writeFs_cons]
    rw [lookupA_cons] at h
    by_cases hq : q = p
    · rw [if_pos hq, lookupA_cons, if_pos hq]
    · rw [if_neg hq] at h
      rw [if_neg hq, lookupA_cons, if_neg hq, ih h]

theorem lookupA_writeFs_other (fs : Fs) (p q : RelPath) (f : File)
    (h : q ≠ p) : lookupA (writeFs fs p f) q = lookupA fs q := by
  induction fs with
  | nil => rfl
  | cons e rest ih =>
    obtain ⟨r, g⟩ := e
    rw [writeFs_cons]
    by_cases hr : r = p
    · subst hr
      rw [if_pos rfl, lookupA_cons, lookupA_cons, if_neg (Ne.symm h), if_neg (Ne.symm h)]
    · rw [if_neg hr, lookupA_cons, lookupA_cons]
      by_cases hrq : r = q
      · rw [if_pos hrq, if_pos hrq]
      · rw [if_neg hrq, if_neg hrq, ih]

/-! ### Lemmas about the read primitives -/

theorem read_bytes_ok (f : File) (bs : List Nat) (h : read_bytes f = .ok bs) :
    f.readErr = false ∧ bs = f.bytes := by
  unfold read_bytes at h
  by_cases hr : f.readErr
  · rw [if_pos hr] at h
    exact Except.noConfusion h
  · rw [if_neg hr] at h
    injection h with h
    exact ⟨Bool.eq_false_iff.mpr hr, h.symm⟩

theorem read_text_ok (f : File) (s : String) (h : read_text f = .ok s) :
    f.readErr = false ∧ f.textDec = some s := by
  unfold read_text at h
  by_cases hr : f.readErr
  · rw [if_pos hr] at h
    exact Except.noConfusion h
  · rw [if_neg hr] at h
    refine ⟨Bool.eq_false_iff.mpr hr, ?_⟩
    cases ht : f.textDec with
    | none => rw [ht] at h; exact Except.noConfusion h
    | some t => rw [ht] at h; injection h with h; rw [h]

theorem read_bytes_of (f : File) (h : f.readErr = false) : read_bytes f = .ok f.bytes := by
  unfold read_bytes
  rw [h]
  rfl

theorem read_text_of (f : File) (s : String) (h : f.readErr = false)
    (ht : f.textDec = some s) : read_text f = .ok s := by
  unfold read_text
  rw [h, ht]
  rfl

theorem read_text_text_written (s : String) : read_text (text_written s) = .ok s := rfl

/-! ### Shape of a successful reconcile -/

/-- The five possible outcomes of reconciling one mapped file pair:
unchanged, preview diff, preview binary notice, binary write (no
notice), or diff immediately followed by the text write. -/
theorem reconcile_shape (m : List (String × String)) (d : Bool) (st : PassState)
    (p : RelPath) (ef tf : File) (st' : PassState)
    (h : reconcile m d st p ef tf = .ok st') :
    st' = st ∨
    (d = true ∧ ∃ o n, st' = { st with events := st.events ++ [Event.printDiff p o n] }) ∨
    (d = true ∧ st' = { st with events := st.events ++ [Event.printBinaryNotice p] }) ∨
    (d = false ∧ ∃ bs, st' =
      { st with tpl := writeFs st.tpl p (bytes_written ef),
                events := st.events ++ [Event.writeBytes p bs] }) ∨
    (d = false ∧ ∃ o n, st' =
      { st with tpl := writeFs st.tpl p (text_written n),
                events := st.events ++ [Event.printDiff p o n, Event.writeText p n] }) := by
  unfold reconcile at h
  repeat' split at h
  all_goals first
    | exact Except.noConfusion h
    | (injection h with h; subst h; exact Or.inl rfl)
    | (injection h with h; subst h;
       exact Or.inr (Or.inr (Or.inl ⟨by assumption, rfl⟩)))
    | (injection h with h; subst h;
       exact Or.inr (Or.inl ⟨by assumption, _, _, rfl⟩))
    | (injection h with h; subst h;
       exact Or.inr (Or.inr (Or.inr (Or.inl
         ⟨Bool.eq_false_iff.mpr (by assumption), _, rfl⟩))))
    | (injection h with h; subst h;
       exact Or.inr (Or.inr (Or.inr (Or.inr
         ⟨Bool.eq_false_iff.mpr (by assumption), _, _, rfl⟩))))
    | (rcases ite_eq_iff.mp h with ⟨hc, h2⟩ | ⟨hc, h2⟩ <;>
        (injection h2 with h2; subst h2; first
          | exact Or.inl rfl
          | exact Or.inr (Or.inl ⟨by assumption, _, _, rfl⟩)
          | exact Or.inr (Or.inr (Or.inr (Or.inr
              ⟨Bool.eq_false_iff.mpr (by assumption), _, _, rfl⟩)))))

/-- A binary pair whose bytes already agree reconciles to no action. -/
theorem reconcile_bin_noop (m : List (String × String)) (d : Bool) (st : PassState)
    (p : RelPath) (ef tf : File) (hb : is_binary ef = true)
    (he : ef.readErr = false) (ht : tf.readErr = false)
    (hbs : tf.bytes = ef.bytes) : reconcile m d st p ef tf = .ok st := by
  unfold reconcile
  rw [if_pos hb, read_bytes_of ef he, read_bytes_of tf ht]
  simp [hbs]

/-- A text pair whose template content already equals the substituted
expanded content reconciles to no action. -/
theorem reconcile_text_noop (m : List (String × String)) (d : Bool) (st : PassState)
    (p : RelPath) (ef tf : File) (s : String) (hb : is_binary ef = false)
    (he : read_text ef = .ok s) (ht : read_text tf = .ok (substitute s m)) :
    reconcile m d st p ef tf = .ok st := by
  unfold reconcile
  rw [if_neg (by rw [hb]; exact Bool.false_ne_true), he, ht]
  simp


/-- After a successful non-preview reconcile, the template file at the
reconciled path carries the reconciled content: equal bytes for a
binary expanded file, the substituted text for a text expanded file. -/
theorem reconcile_post (m : List (String × String)) (st : PassState)
    (p : RelPath) (ef tf : File) (st' : PassState)
    (hl : lookupA st.tpl p = some tf)
    (h : reconcile m false st p ef tf = .ok st') :
    (is_binary ef = true →
      ef.readErr = false ∧
      ∃ tf', lookupA st'.tpl p = some tf' ∧ tf'.readErr = false ∧ tf'.bytes = ef.bytes) ∧
    (is_binary ef = false →
      ∃ s tf', read_text ef = .ok s ∧ lookupA st'.tpl p = some tf' ∧
        read_text tf' = .ok (substitute s m)) := by
  unfold reconcile at h
  by_cases hb : is_binary ef = true
  · rw [if_pos hb] at h
    refine ⟨fun _ => ?_, fun hf => absurd hb (by rw [hf]; exact Bool.false_ne_true)⟩
    cases hbe : read_bytes ef with
    | error e => simp only [hbe] at h; exact Except.noConfusion h
    | ok exp_bytes =>
      simp only [hbe] at h
      obtain ⟨hee, hbeq⟩ := read_bytes_ok ef exp_bytes hbe
      cases hbt : read_bytes tf with
      | error e => simp only [hbt] at h; exact Except.noConfusion h
      | ok tpl_bytes =>
        simp only [hbt] at h
        obtain ⟨hte, hteq⟩ := read_bytes_ok tf tpl_bytes hbt
        refine ⟨hee, ?_⟩
        by_cases hne : tpl_bytes = exp_bytes
        · simp only [hne, ne_eq, not_true_eq_false, if_false, ite_self] at h
          injection h with h
          subst h
          exact ⟨tf, hl, hte, by rw [← hteq, hne, hbeq]⟩
        · simp only [ne_eq, hne, not_false_eq_true, if_true, Bool.false_eq_true, if_false] at h
          injection h with h
          subst h
          refine ⟨bytes_written ef, ?_, rfl, rfl⟩
          exact lookupA_writeFs_self st.tpl p (bytes_written ef) tf hl
  · rw [if_neg hb] at h
    have hbf : is_binary ef = false := Bool.eq_false_iff.mpr hb
    refine ⟨fun ht => absurd ht hb, fun _ => ?_⟩
    cases hre : read_text ef with
    | error e => simp only [hre] at h; exact Except.noConfusion h
    | ok s =>
      simp only [hre] at h
      cases hrt : read_text tf with
      | error e => simp only [hrt] at h; exact Except.noConfusion h
      | ok old_text =>
        simp only [hrt] at h
        by_cases hne : old_text = substitute s m
        · simp only [hne, ne_eq, not_true_eq_false, if_false, ite_self] at h
          injection h with h
          subst h
          exact ⟨s, tf, rfl, hl, by rw [hrt, hne]⟩
        · simp only [ne_eq, hne, not_false_eq_true, if_true, Bool.false_eq_true, if_false] at h
          injection h with h
          subst h
          refine ⟨s, text_written (substitute s m), rfl, ?_, rfl⟩
          exact lookupA_writeFs_self st.tpl p (text_written (substitute s m)) tf hl

/-! ### Lemmas about one pass-1 step -/

theorem step_eq_none (m : List (String × String)) (d : Bool) (st : PassState)
    (e : RelPath × File) (h : lookupA st.tpl (relpath_substitute e.1 m) = none) :
    step m d st e =
      if (".venv") ∉ e.1 ∧ (".mypy_cache") ∉ e.1 then
        .ok { st with unmapped := st.unmapped ++ [e.1] }
      else .ok st := by
  unfold step
  dsimp only
  rw [h]

theorem step_eq_some (m : List (String × String)) (d : Bool) (st : PassState)
    (e : RelPath × File) (tf : File)
    (h : lookupA st.tpl (relpath_substitute e.1 m) = some tf) :
    step m d st e =
      if e.1.getLast? = some ("README.md") then .ok st
      else reconcile m d st (relpath_substitute e.1 m) e.2 tf := by
  unfold step
  dsimp only
  rw [h]

/-- Every successful step preserves the key set of the template tree:
files are overwritten in place, never created or deleted. -/
theorem step_map_fst (m : List (String × String)) (d : Bool) (st : PassState)
    (e : RelPath × File) (st' : PassState) (h : step m d st e = .ok st') :
    st'.tpl.map Prod.fst = st.tpl.map Prod.fst := by
  cases hl : lookupA st.tpl (relpath_substitute e.1 m) with
  | none =>
    rw [step_eq_none m d st e hl] at h
    by_cases hc : (".venv") ∉ e.1 ∧ (".mypy_cache") ∉ e.1
    · rw [if_pos hc] at h
      injection h with h
      subst h
      rfl
    · rw [if_neg hc] at h
      injection h with h
      subst h
      rfl
  | some tf =>
    rw [step_eq_some m d st e tf hl] at h
    by_cases hr : e.1.getLast? = some ("README.md")
    · rw [if_pos hr] at h
      injection h with h
      subst h
      rfl
    · rw [if_neg hr] at h
      rcases reconcile_shape m d st (relpath_substitute e.1 m) e.2 tf st' h with
        h1 | ⟨_, o, n, h1⟩ | ⟨_, h1⟩ | ⟨_, bs, h1⟩ | ⟨_, o, n, h1⟩ <;>
        subst h1 <;> first | rfl | (exact writeFs_map_fst st.tpl _ _)

/-- A preview-mode step never changes the template tree. -/
theorem step_preview_tpl (m : List (String × String)) (st : PassState)
    (e : RelPath × File) (st' : PassState) (h : step m true st e = .ok st') :
    st'.tpl = st.tpl := by
  cases hl : lookupA st.tpl (relpath_substitute e.1 m) with
  | none =>
    rw [step_eq_none m true st e hl] at h
    by_cases hc : (".venv") ∉ e.1 ∧ (".mypy_cache") ∉ e.1
    · rw [if_pos hc] at h
      injection h with h
      subst h
      rfl
    · rw [if_neg hc] at h
      injection h with h
      subst h
      rfl
  | some tf =>
    rw [step_eq_some m true st e tf hl] at h
    by_cases hr : e.1.getLast? = some ("README.md")
    · rw [if_pos hr] at h
      injection h with h
      subst h
      rfl
    · rw [if_neg hr] at h
      rcases reconcile_shape m true st (relpath_substitute e.1 m) e.2 tf st' h with
        h1 | ⟨_, o, n, h1⟩ | ⟨_, h1⟩ | ⟨hd, bs, h1⟩ | ⟨hd, o, n, h1⟩
      · subst h1; rfl
      · subst h1; rfl
      · subst h1; rfl
      · exact Bool.noConfusion hd
      · exact Bool.noConfusion hd

/-- The relative path a write event touches, when it is a write. -/
def writeTarget : Event → Option RelPath
  | .writeText rel _ => some rel
  | .writeBytes rel _ => some rel
  | _ => none

/-- The events a successful step appends: nothing, or (in preview
mode) a lone diff or a lone binary notice, or (in write mode) a diff
immediately followed by the text write it announces, or a bare binary
write with no notice. -/
theorem step_events_chunk (m : List (String × String)) (d : Bool) (st : PassState)
    (e : RelPath × File) (st' : PassState) (h : step m d st e = .ok st') :
    ∃ c, st'.events = st.events ++ c ∧
      (c = [] ∨
       (d = true ∧ ∃ r o n, c = [Event.printDiff r o n]) ∨
       (d = true ∧ ∃ r, c = [Event.printBinaryNotice r]) ∨
       (d = false ∧ ∃ r o n, c = [Event.printDiff r o n, Event.writeText r n]) ∨
       (d = false ∧ ∃ r bs, c = [Event.writeBytes r bs])) := by
  cases hl : lookupA st.tpl (relpath_substitute e.1 m) with
  | none =>
    rw [step_eq_none m d st e hl] at h
    by_cases hc : (".venv") ∉ e.1 ∧ (".mypy_cache") ∉ e.1
    · rw [if_pos hc] at h
      injection h with h
      subst h
      exact ⟨[], by simp, Or.inl rfl⟩
    · rw [if_neg hc] at h
      injection h with h
      subst h
      exact ⟨[], by simp, Or.inl rfl⟩
  | some tf =>
    rw [step_eq_some m d st e tf hl] at h
    by_cases hr : e.1.getLast? = some ("README.md")
    · rw [if_pos hr] at h
      injection h with h
      subst h
      exact ⟨[], by simp, Or.inl rfl⟩
    · rw [if_neg hr] at h
      rcases reconcile_shape m d st (relpath_substitute e.1 m) e.2 tf st' h with
        h1 | ⟨hd, o, n, h1⟩ | ⟨hd, h1⟩ | ⟨hd, bs, h1⟩ | ⟨hd, o, n, h1⟩
      · subst h1
        exact ⟨[], by simp, Or.inl rfl⟩
      · subst h1
        exact ⟨_, rfl, Or.inr (Or.inl ⟨hd, _, o, n, rfl⟩)⟩
      · subst h1
        exact ⟨_, rfl, Or.inr (Or.inr (Or.inl ⟨hd, _, rfl⟩))⟩
      · subst h1
        exact ⟨_, rfl, Or.inr (Or.inr (Or.inr (Or.inr ⟨hd, _, bs, rfl⟩)))⟩
      · subst h1
        exact ⟨_, rfl, Or.inr (Or.inr (Or.inr (Or.inl ⟨hd, _, o, n, rfl⟩)))⟩

/-- Any write event a step appends targets a path that already exists
in the template tree before the step. -/
theorem step_write_old_or_key (m : List (String × String)) (d : Bool) (st : PassState)
    (e : RelPath × File) (st' : PassState) (h : step m d st e = .ok st')
    (ev : Event) (rel : RelPath) (hev : ev ∈ st'.events)
    (ht : writeTarget ev = some rel) :
    ev ∈ st.events ∨ rel ∈ st.tpl.map Prod.fst := by
  cases hl : lookupA st.tpl (relpath_substitute e.1 m) with
  | none =>
    rw [step_eq_none m d st e hl] at h
    by_cases hc : (".venv") ∉ e.1 ∧ (".mypy_cache") ∉ e.1
    · rw [if_pos hc] at h
      injection h with h
      subst h
      exact Or.inl hev
    · rw [if_neg hc] at h
      injection h with h
      subst h
      exact Or.inl hev
  | some tf =>
    have hkey : relpath_substitute e.1 m ∈ st.tpl.map Prod.fst := by
      by_contra hk
      rw [← lookupA_eq_none_iff] at hk
      rw [hk] at hl
      exact Option.noConfusion hl
    rw [step_eq_some m d st e tf hl] at h
    by_cases hr : e.1.getLast? = some ("README.md")
    · rw [if_pos hr] at h
      injection h with h
      subst h
      exact Or.inl hev
    · rw [if_neg hr] at h
      rcases reconcile_shape m d st (relpath_substitute e.1 m) e.2 tf st' h with
        h1 | ⟨hd, o, n, h1⟩ | ⟨hd, h1⟩ | ⟨hd, bs, h1⟩ | ⟨hd, o, n, h1⟩ <;> subst h1
      · exact Or.inl hev
      · rcases List.mem_append.mp hev with hev | hev
        · exact Or.inl hev
        · rcases List.mem_singleton.mp hev with rfl
          exact Option.noConfusion ht
      · rcases List.mem_append.mp hev with hev | hev
        · exact Or.inl hev
        · rcases List.mem_singleton.mp hev with rfl
          exact Option.noConfusion ht
      · rcases List.mem_append.mp hev with hev | hev
        · exact Or.inl hev
        · rcases List.mem_singleton.mp hev with rfl
          injection ht with ht
          subst ht
          exact Or.inr hkey
      · rcases List.mem_append.mp hev with hev | hev
        · exact Or.inl hev
        · rcases List.mem_cons.mp hev with rfl | hev
          · exact Option.noConfusion ht
          · rcases List.mem_singleton.mp hev with rfl
            injection ht with ht
            subst ht
            exact Or.inr hkey

/-- A step writes at most at its own translated path. -/
theorem step_writes_own (m : List (String × String)) (d : Bool) (st : PassState)
    (e : RelPath × File) (st' : PassState) (h : step m d st e = .ok st')
    (q : RelPath) (hq : q ≠ relpath_substitute e.1 m) :
    lookupA st'.tpl q = lookupA st.tpl q := by
  cases hl : lookupA st.tpl (relpath_substitute e.1 m) with
  | none =>
    rw [step_eq_none m d st e hl] at h
    by_cases hc : (".venv") ∉ e.1 ∧ (".mypy_cache") ∉ e.1
    · rw [if_pos hc] at h
      injection h with h
      subst h
      rfl
    · rw [if_neg hc] at h
      injection h with h
      subst h
      rfl
  | some tf =>
    rw [step_eq_some m d st e tf hl] at h
    by_cases hr : e.1.getLast? = some ("README.md")
    · rw [if_pos hr] at h
      injection h with h
      subst h
      rfl
    · rw [if_neg hr] at h
      rcases reconcile_shape m d st (relpath_substitute e.1 m) e.2 tf st' h with
        h1 | ⟨hd, o, n, h1⟩ | ⟨hd, h1⟩ | ⟨hd, bs, h1⟩ | ⟨hd, o, n, h1⟩ <;> subst h1
      · rfl
      · rfl
      · rfl
      · exact lookupA_writeFs_other st.tpl _ q _ hq
      · exact lookupA_writeFs_other st.tpl _ q _ hq

/-- A step leaves the unmapped list alone or appends its own path. -/
theorem step_unmapped_shape (m : List (String × String)) (d : Bool) (st : PassState)
    (e : RelPath × File) (st' : PassState) (h : step m d st e = .ok st') :
    st'.unmapped = st.unmapped ∨ st'.unmapped = st.unmapped ++ [e.1] := by
  cases hl : lookupA st.tpl (relpath_substitute e.1 m) with
  | none =>
    rw [step_eq_none m d st e hl] at h
    by_cases hc : (".venv") ∉ e.1 ∧ (".mypy_cache") ∉ e.1
    · rw [if_pos hc] at h
      injection h with h
      subst h
      exact Or.inr rfl
    · rw [if_neg hc] at h
      injection h with h
      subst h
      exact Or.inl rfl
  | some tf =>
    rw [step_eq_some m d st e tf hl] at h
    by_cases hr : e.1.getLast? = some ("README.md")
    · rw [if_pos hr] at h
      injection h with h
      subst h
      exact Or.inl rfl
    · rw [if_neg hr] at h
      rcases reconcile_shape m d st (relpath_substitute e.1 m) e.2 tf st' h with
        h1 | ⟨hd, o, n, h1⟩ | ⟨hd, h1⟩ | ⟨hd, bs, h1⟩ | ⟨hd, o, n, h1⟩ <;> subst h1 <;>
        exact Or.inl rfl

/-- An expanded file with no template counterpart and outside the
excluded directories is appended to the unmapped list, whatever its
name; nothing else happens to it (README is only tested later). -/
theorem step_none_unmapped (m : List (String × String)) (d : Bool) (st : PassState)
    (e : RelPath × File) (hl : lookupA st.tpl (relpath_substitute e.1 m) = none)
    (hc : (".venv") ∉ e.1 ∧ (".mypy_cache") ∉ e.1) :
    step m d st e = .ok { st with unmapped := st.unmapped ++ [e.1] } := by
  rw [step_eq_none m d st e hl, if_pos hc]

/-- An expanded file named README.md whose template counterpart exists
is skipped outright: no comparison, no diff, no write. -/
theorem step_readme_skip (m : List (String × String)) (d : Bool) (st : PassState)
    (e : RelPath × File) (tf : File)
    (hl : lookupA st.tpl (relpath_substitute e.1 m) = some tf)
    (hr : e.1.getLast? = some ("README.md")) :
    step m d st e = .ok st := by
  rw [step_eq_some m d st e tf hl, if_pos hr]

/-! ### Lemmas about pass 1 as a whole -/

theorem pass1_nil (m : List (String × String)) (d : Bool) (st : PassState) :
    pass1 m d st [] = (st, false) := rfl

theorem pass1_cons_ok (m : List (String × String)) (d : Bool) (st st₁ : PassState)
    (e : RelPath × File) (rest : List (RelPath × File))
    (h : step m d st e = .ok st₁) :
    pass1 m d st (e :: rest) = pass1 m d st₁ rest := by
  have hd : pass1 m d st (e :: rest) =
      match step m d st e with
      | .ok st' => pass1 m d st' rest
      | .error _ => (st, true) := rfl
  rw [hd, h]

/-- An uncaught per-file exception freezes the run: the remaining
files of the walk are never processed and the state is left as it was
before the failing file. -/
theorem pass1_cons_err (m : List (String × String)) (d : Bool) (st : PassState)
    (e : RelPath × File) (rest : List (RelPath × File)) (u : Unit)
    (h : step m d st e = .error u) :
    pass1 m d st (e :: rest) = (st, true) := by
  have hd : pass1 m d st (e :: rest) =
      match step m d st e with
      | .ok st' => pass1 m d st' rest
      | .error _ => (st, true) := rfl
  rw [hd, h]

theorem pass1_tpl_map_fst (m : List (String × String)) (d : Bool)
    (es : List (RelPath × File)) (st : PassState) :
    ((pass1 m d st es).1).tpl.map Prod.fst = st.tpl.map Prod.fst := by
  induction es generalizing st with
  | nil => rfl
  | cons e rest ih =>
    cases hs : step m d st e with
    | ok st₁ =>
      rw [pass1_cons_ok m d st st₁ e rest hs, ih st₁, step_map_fst m d st e st₁ hs]
    | error u =>
      rw [pass1_cons_err m d st e rest u hs]

theorem pass1_preview_tpl (m : List (String × String))
    (es : List (RelPath × File)) (st : PassState) :
    ((pass1 m true st es).1).tpl = st.tpl := by
  induction es generalizing st with
  | nil => rfl
  | cons e rest ih =>
    cases hs : step m true st e with
    | ok st₁ =>
      rw [pass1_cons_ok m true st st₁ e rest hs, ih st₁,
        step_preview_tpl m st e st₁ hs]
    | error u =>
      rw [pass1_cons_err m true st e rest u hs]

theorem pass1_write_old_or_key (m : List (String × String)) (d : Bool)
    (es : List (RelPath × File)) (st : PassState)
    (ev : Event) (rel : RelPath) (hev : ev ∈ ((pass1 m d st es).1).events)
    (ht : writeTarget ev = some rel) :
    ev ∈ st.events ∨ rel ∈ st.tpl.map Prod.fst := by
  induction es generalizing st with
  | nil => exact Or.inl hev
  | cons e rest ih =>
    cases hs : step m d st e with
    | ok st₁ =>
      rw [pass1_cons_ok m d st st₁ e rest hs] at hev
      rcases ih st₁ hev with h1 | h1
      · exact step_write_old_or_key m d st e st₁ hs ev rel h1 ht
      · rw [step_map_fst m d st e st₁ hs] at h1
        exact Or.inr h1
    | error u =>
      rw [pass1_cons_err m d st e rest u hs] at hev
      exact Or.inl hev

theorem pass1_unmapped_mono (m : List (String × String)) (d : Bool)
    (es : List (RelPath × File)) (st : PassState) (x : RelPath)
    (hx : x ∈ st.unmapped) : x ∈ ((pass1 m d st es).1).unmapped := by
  induction es generalizing st with
  | nil => exact hx
  | cons e rest ih =>
    cases hs : step m d st e with
    | ok st₁ =>
      rw [pass1_cons_ok m d st st₁ e rest hs]
      rcases step_unmapped_shape m d st e st₁ hs with h1 | h1
      · exact ih st₁ (h1 ▸ hx)
      · exact ih st₁ (by rw [h1]; exact List.mem_append_left _ hx)
    | error u =>
      rw [pass1_cons_err m d st e rest u hs]
      exact hx

/-- When pass 1 completes without crashing, every expanded file whose
translated path has no template counterpart and which is not under an
excluded directory ends up in the unmapped list. -/
theorem pass1_complete_unmapped (m : List (String × String)) (d : Bool)
    (es : List (RelPath × File)) (st st' : PassState)
    (hp : pass1 m d st es = (st', false))
    (e : RelPath × File) (he : e ∈ es)
    (hl : lookupA st.tpl (relpath_substitute e.1 m) = none)
    (hc : (".venv") ∉ e.1 ∧ (".mypy_cache") ∉ e.1) :
    e.1 ∈ st'.unmapped := by
  induction es generalizing st with
  | nil => exact absurd he (List.not_mem_nil e)
  | cons e0 rest ih =>
    cases hs : step m d st e0 with
    | ok st₁ =>
      rw [pass1_cons_ok m d st st₁ e0 rest hs] at hp
      rcases List.mem_cons.mp he with rfl | he
      · have hstep := step_none_unmapped m d st e hl hc
        rw [hstep] at hs
        injection hs with hs
        have hmem : e.1 ∈ st₁.unmapped := by
          rw [← hs]
          exact List.mem_append_right _ (List.mem_singleton.mpr rfl)
        have := pass1_unmapped_mono m d rest st₁ e.1 hmem
        rw [hp] at this
        exact this
      · have hl₁ : lookupA st₁.tpl (relpath_substitute e.1 m) = none := by
          rw [lookupA_eq_none_iff] at hl ⊢
          rw [step_map_fst m d st e0 st₁ hs]
          exact hl
        exact ih st₁ hp he hl₁
    | error u =>
      rw [pass1_cons_err m d st e0 rest u hs] at hp
      exact Bool.noConfusion (congrArg Prod.snd hp)

/-- Pass 1 never touches a template path that is not the translated
path of one of the walked expanded files. -/
theorem pass1_untouched (m : List (String × String)) (d : Bool)
    (es : List (RelPath × File)) (st : PassState) (q : RelPath)
    (hq : q ∉ es.map (fun e => relpath_substitute e.1 m)) :
    lookupA ((pass1 m d st es).1).tpl q = lookupA st.tpl q := by
  induction es generalizing st with
  | nil => rfl
  | cons e rest ih =>
    rw [List.map_cons, List.mem_cons] at hq
    push_neg at hq
    cases hs : step m d st e with
    | ok st₁ =>
      rw [pass1_cons_ok m d st st₁ e rest hs, ih st₁ hq.2,
        step_writes_own m d st e st₁ hs q hq.1]
    | error u =>
      rw [pass1_cons_err m d st e rest u hs]

/-! ### Projections of sync and runSync -/

theorem sync_tpl (m t2r : List (String × String)) (tpl expDir : Fs) (d : Bool) :
    (sync m t2r tpl expDir d).tpl =
      ((pass1 m d { tpl := tpl, events := [], unmapped := [] } expDir).1).tpl := by
  unfold sync
  rcases hp : pass1 m d { tpl := tpl, events := [], unmapped := [] } expDir with ⟨st, b⟩
  cases b <;> rfl

theorem sync_events (m t2r : List (String × String)) (tpl expDir : Fs) (d : Bool) :
    (sync m t2r tpl expDir d).events =
      ((pass1 m d { tpl := tpl, events := [], unmapped := [] } expDir).1).events := by
  unfold sync
  rcases hp : pass1 m d { tpl := tpl, events := [], unmapped := [] } expDir with ⟨st, b⟩
  cases b <;> rfl

theorem sync_unmapped (m t2r : List (String × String)) (tpl expDir : Fs) (d : Bool) :
    (sync m t2r tpl expDir d).unmapped =
      ((pass1 m d { tpl := tpl, events := [], unmapped := [] } expDir).1).unmapped := by
  unfold sync
  rcases hp : pass1 m d { tpl := tpl, events := [], unmapped := [] } expDir with ⟨st, b⟩
  cases b <;> rfl

theorem sync_crashed (m t2r : List (String × String)) (tpl expDir : Fs) (d : Bool) :
    (sync m t2r tpl expDir d).crashed =
      (pass1 m d { tpl := tpl, events := [], unmapped := [] } expDir).2 := by
  unfold sync
  rcases hp : pass1 m d { tpl := tpl, events := [], unmapped := [] } expDir with ⟨st, b⟩
  cases b <;> rfl

theorem sync_missing_of_ok (m t2r : List (String × String)) (tpl expDir : Fs) (d : Bool)
    (st : PassState)
    (hp : pass1 m d { tpl := tpl, events := [], unmapped := [] } expDir = (st, false)) :
    (sync m t2r tpl expDir d).missing = pass2 t2r st.tpl expDir := by
  unfold sync
  rw [hp]

theorem runSync_ok (specs : List String) (tpl expDir : Fs) (d : Bool) (res : RunResult)
    (h : runSync specs tpl expDir d = .ok res) :
    ∃ r2t t2r, make_maps specs = .ok (r2t, t2r) ∧ res = sync r2t t2r tpl expDir d := by
  unfold runSync at h
  cases hm : make_maps specs with
  | error e =>
    rw [hm] at h
    exact Except.noConfusion h
  | ok p =>
    obtain ⟨a, b⟩ := p
    simp only [hm] at h
    injection h with h
    exact ⟨a, b, rfl, h.symm⟩

/-! ### Claim theorems C1 and C2 -/

/-- C1: with --diff-only active, a run — whatever the two trees and
the variable bindings are, and even if it stops early on a read
error — leaves every file of the template tree byte-for-byte
unchanged, while the comparisons still execute. -/
theorem C1_preview_read_only (specs : List String) (tpl expDir : Fs) (res : RunResult)
    (h : runSync specs tpl expDir true = .ok res) : res.tpl = tpl := by
  obtain ⟨r2t, t2r, hm, rfl⟩ := runSync_ok specs tpl expDir true res h
  rw [sync_tpl, pass1_preview_tpl]

def W1tpl : Fs := [([("a.txt")], textFile ("old"))]
def W1exp : Fs := [([("a.txt")], textFile ("new"))]

theorem C1_witness :
    (sync [(("zzz"), placeholderOf ("slug"))] [(placeholderOf ("slug"), ("zzz"))]
      W1tpl W1exp true).tpl = W1tpl :=
  C1_preview_read_only [("slug=zzz")] W1tpl W1exp _ rfl

/-- C2: every run (preview or not, crashed or not) preserves the set
of template files exactly — nothing is created or deleted — and every
write event targets a path that existed in the template tree before
the run; when the run completes, an expanded file whose translated
path has no template counterpart (and which is not under an excluded
directory) is reported in the unmapped list.  The expanded tree is
threaded immutably through the whole embedding: no operation of the
run produces a new expanded tree. -/
theorem C2_filesystem_contract (specs : List String) (tpl expDir : Fs) (d : Bool)
    (res : RunResult) (h : runSync specs tpl expDir d = .ok res) :
    ∃ r2t t2r, make_maps specs = .ok (r2t, t2r) ∧
      res.tpl.map Prod.fst = tpl.map Prod.fst ∧
      (∀ ev rel, ev ∈ res.events → writeTarget ev = some rel →
        rel ∈ tpl.map Prod.fst) ∧
      (res.crashed = false →
        ∀ e ∈ expDir, lookupA tpl (relpath_substitute e.1 r2t) = none →
          (".venv") ∉ e.1 ∧ (".mypy_cache") ∉ e.1 → e.1 ∈ res.unmapped) := by
  obtain ⟨r2t, t2r, hm, rfl⟩ := runSync_ok specs tpl expDir d res h
  refine ⟨r2t, t2r, hm, ?_, ?_, ?_⟩
  · rw [sync_tpl, pass1_tpl_map_fst]
  · intro ev rel hev ht
    rw [sync_events] at hev
    rcases pass1_write_old_or_key r2t d expDir
        { tpl := tpl, events := [], unmapped := [] } ev rel hev ht with h1 | h1
    · exact absurd h1 (List.not_mem_nil ev)
    · exact h1
  · intro hc e he hl hx
    rw [sync_crashed] at hc
    rw [sync_unmapped]
    rcases hp : pass1 r2t d { tpl := tpl, events := [], unmapped := [] } expDir with ⟨st, b⟩
    rw [hp] at hc
    have hb : b = false := hc
    subst hb
    exact pass1_complete_unmapped r2t d expDir _ st hp e he hl hx

theorem C2_witness :
    (sync [(("zzz"), placeholderOf ("slug"))] [(placeholderOf ("slug"), ("zzz"))]
        W1tpl W1exp false).tpl.map Prod.fst = W1tpl.map Prod.fst ∧
    ([("b.txt")] : RelPath) ∈ (sync [(("zzz"), placeholderOf ("slug"))]
        [(placeholderOf ("slug"), ("zzz"))] W1tpl
        [([("b.txt")], textFile ("q"))] false).unmapped := by
  constructor
  · obtain ⟨r2t, t2r, hm, h1, h2, h3⟩ :=
      C2_filesystem_contract [("slug=zzz")] W1tpl W1exp false
        (sync [(("zzz"), placeholderOf ("slug"))] [(placeholderOf ("slug"), ("zzz"))]
          W1tpl W1exp false) rfl
    exact h1
  · obtain ⟨r2t, t2r, hm, h1, h2, h3⟩ :=
      C2_filesystem_contract [("slug=zzz")] W1tpl [([("b.txt")], textFile ("q"))] false
        (sync [(("zzz"), placeholderOf ("slug"))] [(placeholderOf ("slug"), ("zzz"))]
          W1tpl [([("b.txt")], textFile ("q"))] false) rfl
    have h0 : make_maps [("slug=zzz")] =
        .ok ([(("zzz"), placeholderOf ("slug"))], [(placeholderOf ("slug"), ("zzz"))]) := rfl
    rw [hm] at h0
    injection h0 with h0
    rw [Prod.mk.injEq] at h0
    obtain ⟨hr, ht⟩ := h0
    subst hr
    subst ht
    exact h3 (by decide) ([("b.txt")], textFile ("q")) (by decide) (by decide) (by decide)

/-! ### Claim theorems C8, C9, C10 -/

/-- C8: an expanded file whose base name is README.md and whose
translated template counterpart exists is skipped entirely by the
reconciler: the state (template tree, event trace, unmapped list) is
returned untouched, so no diff is printed and no write happens even
when the contents differ. -/
theorem C8_readme_exempt (m : List (String × String)) (d : Bool) (st : PassState)
    (e : RelPath × File) (tf : File)
    (hl : lookupA st.tpl (relpath_substitute e.1 m) = some tf)
    (hr : e.1.getLast? = some ("README.md")) :
    step m d st e = .ok st :=
  step_readme_skip m d st e tf hl hr

theorem C8_witness :
    step [(("zzz"), placeholderOf ("slug"))] false
      { tpl := [([("README.md")], textFile ("A"))], events := [], unmapped := [] }
      ([("README.md")], textFile ("B")) =
    .ok { tpl := [([("README.md")], textFile ("A"))], events := [], unmapped := [] } :=
  C8_readme_exempt [(("zzz"), placeholderOf ("slug"))] false
    { tpl := [([("README.md")], textFile ("A"))], events := [], unmapped := [] }
    ([("README.md")], textFile ("B")) (textFile ("A")) (by decide) (by decide)

/-- C9: pass 2 applies no exclusion filter: every template file whose
translated relative path has no counterpart in the expanded tree lands
in the missing list, including files under .venv or .mypy_cache
directories. -/
theorem C9_missing_unfiltered (t2r : List (String × String)) (tpl expDir : Fs)
    (rel : RelPath) (f : File) (hm : (rel, f) ∈ tpl)
    (hl : lookupA expDir (relpath_substitute rel t2r) = none) :
    rel ∈ pass2 t2r tpl expDir := by
  unfold pass2
  exact List.mem_filterMap.mpr ⟨(rel, f), hm, by rw [if_pos hl]⟩

theorem C9_witness :
    ([(".venv"), ("cache.txt")] : RelPath) ∈
      pass2 [(placeholderOf ("slug"), ("zzz"))]
        [([(".venv"), ("cache.txt")], textFile ("a"))] [] :=
  C9_missing_unfiltered [(placeholderOf ("slug"), ("zzz"))]
    [([(".venv"), ("cache.txt")], textFile ("a"))] []
    [(".venv"), ("cache.txt")] (textFile ("a")) (by decide) (by decide)

/-- C10: an expanded file named README.md whose translated path has no
template counterpart (and which is not under an excluded directory) is
recorded in the unmapped list like any other file: the counterpart
check runs before the README exemption, so the exemption never
suppresses unmapped reporting. -/
theorem C10_readme_unmapped (m : List (String × String)) (d : Bool) (st : PassState)
    (e : RelPath × File)
    (hl : lookupA st.tpl (relpath_substitute e.1 m) = none)
    (hc : (".venv") ∉ e.1 ∧ (".mypy_cache") ∉ e.1)
    (hr : e.1.getLast? = some ("README.md")) :
    step m d st e = .ok { st with unmapped := st.unmapped ++ [e.1] } :=
  step_none_unmapped m d st e hl hc

theorem C10_witness :
    step [(("zzz"), placeholderOf ("slug"))] false
      { tpl := [], events := [], unmapped := [] }
      ([("docs"), ("README.md")], textFile ("B")) =
    .ok { tpl := [], events := [],
          unmapped := [] ++ [[("docs"), ("README.md")]] } :=
  C10_readme_unmapped [(("zzz"), placeholderOf ("slug"))] false
    { tpl := [], events := [], unmapped := [] }
    ([("docs"), ("README.md")], textFile ("B")) (by decide) (by decide) (by decide)

/-! ### Claim C3: announcements before writes -/

/-- C3 as amended: the events a successful per-file step appends are
nothing, a lone diff or a lone binary notice in preview mode, or — in
write mode — a unified diff immediately followed by the text write it
announces, or a binary write with no notice at all: text changes are
never applied silently, binary changes are announced only in preview
mode and are applied silently in write mode. -/
theorem C3_text_announced_binary_silent (m : List (String × String)) (d : Bool)
    (st : PassState) (e : RelPath × File) (st' : PassState)
    (h : step m d st e = .ok st') :
    ∃ c, st'.events = st.events ++ c ∧
      (c = [] ∨
       (d = true ∧ ∃ r o n, c = [Event.printDiff r o n]) ∨
       (d = true ∧ ∃ r, c = [Event.printBinaryNotice r]) ∨
       (d = false ∧ ∃ r o n, c = [Event.printDiff r o n, Event.writeText r n]) ∨
       (d = false ∧ ∃ r bs, c = [Event.writeBytes r bs])) :=
  step_events_chunk m d st e st' h

theorem C3_witness :
    ∃ st' c, step [(("zzz"), placeholderOf ("slug"))] false
        { tpl := [([("a.txt")], textFile ("old")), ([("b.txt")], textFile ("keep"))],
          events := [], unmapped := [] }
        ([("a.txt")], textFile ("zzz")) = .ok st' ∧
      st'.events = ([] : List Event) ++ c ∧
      (c = [] ∨
       (false = true ∧ ∃ r o n, c = [Event.printDiff r o n]) ∨
       (false = true ∧ ∃ r, c = [Event.printBinaryNotice r]) ∨
       (false = false ∧ ∃ r o n, c = [Event.printDiff r o n, Event.writeText r n]) ∨
       (false = false ∧ ∃ r bs, c = [Event.writeBytes r bs])) := by
  obtain ⟨c, h1, h2⟩ := C3_text_announced_binary_silent
    [(("zzz"), placeholderOf ("slug"))] false
    { tpl := [([("a.txt")], textFile ("old")), ([("b.txt")], textFile ("keep"))],
      events := [], unmapped := [] }
    ([("a.txt")], textFile ("zzz")) _ rfl
  exact ⟨_, c, rfl, h1, h2⟩

/-- C3 counterexample: a non-preview run over a single differing
binary file performs the write with no preceding notice of any kind —
the trace is exactly one writeBytes event — so binary content is
changed silently, contradicting the claim that every binary change is
announced before being applied. -/
theorem C3_counterexample :
    (runSync [("slug=zzz")]
        [([("b.bin")], binFile [0, 2] (some ("\x00\x02")))]
        [([("b.bin")], binFile [0, 1] (some ("\x00\x01")))]
        false).toOption.map RunResult.events =
      some [Event.writeBytes [("b.bin")] [0, 1]] := by decide

/-! ### Claim C4: per-file errors abort the whole run -/

/-- C4 as amended: a per-file read or decode error raised after the
binary/text classification is not caught anywhere: it stops the walk
at that file, the remaining files of both passes are never processed
and the state is frozen as it was before the failing file.  Only
errors raised during classification itself are contained: is_binary
treats an unreadable file as binary. -/
theorem C4_error_aborts_run (m : List (String × String)) (d : Bool)
    (st : PassState) (e : RelPath × File) (rest : List (RelPath × File)) (u : Unit)
    (h : step m d st e = .error u) :
    pass1 m d st (e :: rest) = (st, true) ∧
      ∀ f : File, f.readErr = true → is_binary f = true :=
  ⟨pass1_cons_err m d st e rest u h,
   fun f hf => by unfold is_binary; rw [hf]; rfl⟩

theorem C4_witness :
    pass1 [(("zzz"), placeholderOf ("slug"))] false
      { tpl := [([("bad.txt")], textFile ("x")), ([("good.txt")], textFile ("y"))],
        events := [], unmapped := [] }
      [([("bad.txt")], binFile [255] none), ([("good.txt")], textFile ("hi"))] =
    ({ tpl := [([("bad.txt")], textFile ("x")), ([("good.txt")], textFile ("y"))],
       events := [], unmapped := [] }, true) ∧
      ∀ f : File, f.readErr = true → is_binary f = true :=
  C4_error_aborts_run [(("zzz"), placeholderOf ("slug"))] false
    { tpl := [([("bad.txt")], textFile ("x")), ([("good.txt")], textFile ("y"))],
      events := [], unmapped := [] }
    ([("bad.txt")], binFile [255] none)
    [([("good.txt")], textFile ("hi"))] () rfl

/-- C4 counterexample: with an expanded file that classifies as text
(no NUL byte) but fails UTF-8 decoding, the whole run crashes at that
file: the differing good.txt after it is left unwritten, no event is
produced, and pass 2 never runs — processing does not continue with
the remaining files as the claim states. -/
theorem C4_counterexample :
    (runSync [("slug=zzz")]
        [([("bad.txt")], textFile ("x")), ([("good.txt")], textFile ("y"))]
        [([("bad.txt")], binFile [255] none), ([("good.txt")], textFile ("hi"))]
        false).toOption =
      some { tpl := [([("bad.txt")], textFile ("x")), ([("good.txt")], textFile ("y"))],
             events := [], unmapped := [], missing := [], crashed := true } := by decide

/-! ### Claim C5: longest-match precedence -/

/-- C5 as amended: both substitution tables produced by make_maps are
ordered by non-increasing key length — descending, but with ties
between distinct equal-length keys, which keep their insertion order
under the stable sort, so the order is not strict — substitution tries
the pairs in exactly that order, and on the spec's own example —
values calc and simplecalc — a buffer containing simplecalc
translates to the slug2 placeholder with no residual literal calc
inside the substituted fragment. -/
theorem C5_longest_first :
    (∀ specs r2t t2r, make_maps specs = .ok (r2t, t2r) →
      List.Pairwise lenGE r2t ∧ List.Pairwise lenGE t2r) ∧
    make_maps [("slug=calc"), ("slug2=simplecalc")] =
      .ok ([(("simplecalc"), placeholderOf ("slug2")), (("calc"), placeholderOf ("slug"))],
           [(placeholderOf ("slug2"), ("simplecalc")),
            (placeholderOf ("slug"), ("calc"))]) ∧
    substitute ("simplecalc")
      [(("simplecalc"), placeholderOf ("slug2")), (("calc"), placeholderOf ("slug"))] =
      placeholderOf ("slug2") ∧
    substitute ("I use simplecalc and calc daily")
      [(("simplecalc"), placeholderOf ("slug2")), (("calc"), placeholderOf ("slug"))] =
      ("I use ") ++ placeholderOf ("slug2") ++ (" and ") ++
        placeholderOf ("slug") ++ (" daily") := by
  refine ⟨?_, rfl, by decide, by decide⟩
  intro specs r2t t2r h
  unfold make_maps at h
  cases hm : make_maps_loop specs [] [] with
  | error e =>
    rw [hm] at h
    exact Except.noConfusion h
  | ok p =>
    rw [hm] at h
    injection h with h
    rw [Prod.mk.injEq] at h
    obtain ⟨h1, h2⟩ := h
    subst h1
    subst h2
    exact ⟨List.sorted_insertionSort lenGE p.1, List.sorted_insertionSort lenGE p.2⟩

/-- C5 counterexample: two bindings with distinct equal-length values
(a=x and b=y) produce a render-to-template table whose two keys have
the same length, so the table is not ordered by STRICTLY descending
key length as the claim states; the order is only non-increasing. -/
theorem C5_counterexample :
    (make_maps [("a=x"), ("b=y")]).toOption =
      some ([(("x"), placeholderOf ("a")), (("y"), placeholderOf ("b"))],
            [(placeholderOf ("a"), ("x")), (placeholderOf ("b"), ("y"))]) ∧
    ¬ List.Pairwise (fun p q : String × String => q.1.length < p.1.length)
        [(("x"), placeholderOf ("a")), (("y"), placeholderOf ("b"))] := by decide

theorem C5_witness :
    List.Pairwise lenGE [(("bb"), placeholderOf ("a")), (("d"), placeholderOf ("c"))] :=
  (C5_longest_first.1 [("a=bb"), ("c=d")]
    [(("bb"), placeholderOf ("a")), (("d"), placeholderOf ("c"))]
    [(placeholderOf ("a"), ("bb")), (placeholderOf ("c"), ("d"))] rfl).1

/-! ### Claim C7: repeated names and the two tables -/

/-- Parse every --var argument; none when any argument lacks '='. -/
def parseVars : List String → Option (List (String × String))
  | [] => some []
  | s :: rest =>
    match splitVar s with
    | none => none
    | some p =>
      match parseVars rest with
      | none => none
      | some ps => some (p :: ps)

/-- The value of the last pair carrying key k, if any: the reference
meaning of last-wins insertion. -/
def lastVal : List (String × String) → String → Option String
  | [], _ => none
  | p :: rest, k =>
    match lastVal rest k with
    | some w => some w
    | none => if p.1 = k then some p.2 else none

theorem dictInsert_map_fst_nodup (d : List (String × String)) (k v : String)
    (h : (d.map Prod.fst).Nodup) : ((dictInsert d k v).map Prod.fst).Nodup := by
  unfold dictInsert
  by_cases ha : d.any (fun p => p.1 = k)
  · rw [if_pos ha]
    have : (d.map (fun p => if p.1 = k then (p.1, v) else p)).map Prod.fst = d.map Prod.fst := by
      rw [List.map_map]
      refine List.map_congr_left ?_
      intro p _
      by_cases hp : p.1 = k
      · simp [hp]
      · simp [hp]
    rw [this]
    exact h
  · rw [if_neg ha]
    have hk : k ∉ d.map Prod.fst := by
      intro hk
      rcases List.mem_map.mp hk with ⟨p, hp, hpk⟩
      exact ha (List.any_eq_true.mpr ⟨p, hp, by simp [hpk]⟩)
    simp only [List.map_append, List.map_cons, List.map_nil]
    rw [List.nodup_append]
    exact ⟨h, List.nodup_singleton k, by simp [List.disjoint_singleton, hk]⟩

theorem dictInsert_mem (d : List (String × String)) (k v k' v' : String) :
    ((k', v') ∈ dictInsert d k v ↔ if k' = k then v' = v else (k', v') ∈ d) := by
  unfold dictInsert
  by_cases ha : d.any (fun p => p.1 = k)
  · rw [if_pos ha]
    by_cases hk : k' = k
    · subst hk
      rw [if_pos rfl]
      constructor
      · intro hm
        rcases List.mem_map.mp hm with ⟨p, hp, hpe⟩
        by_cases hpk : p.1 = k'
        · rw [if_pos hpk] at hpe
          rw [Prod.mk.injEq] at hpe
          exact hpe.2.symm
        · rw [if_neg hpk] at hpe
          exact absurd (congrArg Prod.fst hpe) hpk
      · intro hv
        subst hv
        rcases List.any_eq_true.mp ha with ⟨p, hp, hpk⟩
        rw [decide_eq_true_eq] at hpk
        refine List.mem_map.mpr ⟨p, hp, ?_⟩
        rw [if_pos hpk, hpk]
    · rw [if_neg hk]
      constructor
      · intro hm
        rcases List.mem_map.mp hm with ⟨p, hp, hpe⟩
        by_cases hpk : p.1 = k
        · rw [if_pos hpk] at hpe
          exact absurd (congrArg Prod.fst hpe).symm (by rw [hpk] at *; exact hk)
        · rw [if_neg hpk] at hpe
          exact hpe ▸ hp
      · intro hm
        refine List.mem_map.mpr ⟨(k', v'), hm, ?_⟩
        rw [if_neg hk]
  · rw [if_neg ha]
    have hnd : ∀ p, p ∈ d → p.1 ≠ k := by
      intro p hp hpk
      exact ha (List.any_eq_true.mpr ⟨p, hp, by simp [hpk]⟩)
    by_cases hk : k' = k
    · subst hk
      rw [if_pos rfl, List.mem_append, List.mem_singleton]
      constructor
      · intro hm
        rcases hm with hm | hm
        · exact absurd rfl (hnd (k', v') hm)
        · rw [Prod.mk.injEq] at hm
          exact hm.2
      · intro hv
        subst hv
        exact Or.inr rfl
    · rw [if_neg hk, List.mem_append, List.mem_singleton]
      constructor
      · intro hm
        rcases hm with hm | hm
        · exact hm
        · rw [Prod.mk.injEq] at hm
          exact absurd hm.1 hk
      · exact Or.inl

theorem foldl_dictInsert_mem (l : List (String × String))
    (d : List (String × String)) (k v : String) :
    ((k, v) ∈ l.foldl (fun d p => dictInsert d p.1 p.2) d ↔
      match lastVal l k with
      | some w => v = w
      | none => (k, v) ∈ d) := by
  induction l generalizing d with
  | nil => rfl
  | cons p rest ih =>
    rw [List.foldl_cons, ih]
    show (match lastVal rest k with
          | some w => v = w
          | none => (k, v) ∈ dictInsert d p.1 p.2) ↔ _
    cases hl : lastVal rest k with
    | some w =>
      have : lastVal (p :: rest) k = some w := by
        unfold lastVal
        rw [hl]
      rw [this]
    | none =>
      have : lastVal (p :: rest) k = if p.1 = k then some p.2 else none := by
        unfold lastVal
        rw [hl]
      rw [this]
      by_cases hpk : p.1 = k
      · rw [if_pos hpk, dictInsert_mem, if_pos hpk.symm]
      · rw [if_neg hpk, dictInsert_mem,
          if_neg (fun hh : k = p.1 => hpk hh.symm)]

theorem foldl_dictInsert_nodup (l : List (String × String))
    (d : List (String × String)) (h : (d.map Prod.fst).Nodup) :
    ((l.foldl (fun d p => dictInsert d p.1 p.2) d).map Prod.fst).Nodup := by
  induction l generalizing d with
  | nil => exact h
  | cons p rest ih =>
    rw [List.foldl_cons]
    exact ih _ (dictInsert_map_fst_nodup d p.1 p.2 h)

theorem make_maps_loop_eq (specs : List String) (bs : List (String × String))
    (a b : List (String × String)) (h : parseVars specs = some bs) :
    make_maps_loop specs a b = .ok
      (bs.foldl (fun d p => dictInsert d p.2 (placeholderOf p.1)) a,
       bs.foldl (fun d p => dictInsert d (placeholderOf p.1) p.2) b) := by
  induction specs generalizing bs a b with
  | nil =>
    unfold parseVars at h
    injection h with h
    subst h
    rfl
  | cons s rest ih =>
    unfold parseVars at h
    cases hs : splitVar s with
    | none =>
      simp only [hs] at h
      exact Option.noConfusion h
    | some p =>
      obtain ⟨name, value⟩ := p
      simp only [hs] at h
      cases hr : parseVars rest with
      | none =>
        simp only [hr] at h
        exact Option.noConfusion h
      | some ps =>
        simp only [hr] at h
        injection h with h
        subst h
        have hd : make_maps_loop (s :: rest) a b =
            make_maps_loop rest (dictInsert a value (placeholderOf name))
              (dictInsert b (placeholderOf name) value) := by
          have h0 : make_maps_loop (s :: rest) a b =
              match splitVar s with
              | none => .error (("--var expects NAME=VALUE, got ") ++ s)
              | some (name, value) =>
                make_maps_loop rest (dictInsert a value (placeholderOf name))
                  (dictInsert b (placeholderOf name) value) := rfl
          rw [h0, hs]
        rw [hd, ih ps _ _ hr]
        rfl

theorem mem_pyDict_iff_lastVal (l : List (String × String)) (k v : String) :
    ((k, v) ∈ l.foldl (fun d p => dictInsert d p.1 p.2) [] ↔ lastVal l k = some v) := by
  rw [foldl_dictInsert_mem]
  cases hl : lastVal l k with
  | some w =>
    show v = w ↔ some w = some v
    constructor
    · intro hv
      rw [hv]
    · intro hv
      injection hv with hv
      exact hv.symm
  | none =>
    show (k, v) ∈ ([] : List (String × String)) ↔ none = some v
    constructor
    · intro hf
      exact absurd hf (List.not_mem_nil _)
    · intro hv
      exact Option.noConfusion hv

/-- C7 as amended: last-wins holds per table key, not per name.  The
template-to-render table is keyed by the placeholder (hence by the
name): it keeps exactly one entry per placeholder, carrying the last
value bound to that name.  The render-to-template table is keyed by
the VALUE: each distinct value ever bound keeps its own entry mapping
it to the placeholder of the last name that bound it, so a name
repeated with two different values leaves two entries, not one. -/
theorem C7_last_wins_amended (specs : List String) (bs : List (String × String))
    (r2t t2r : List (String × String))
    (hp : parseVars specs = some bs)
    (hm : make_maps specs = .ok (r2t, t2r)) :
    ((t2r.map Prod.fst).Nodup ∧
      ∀ k v, ((k, v) ∈ t2r ↔
        lastVal (bs.map (fun p => (placeholderOf p.1, p.2))) k = some v)) ∧
    ((r2t.map Prod.fst).Nodup ∧
      ∀ k v, ((k, v) ∈ r2t ↔
        lastVal (bs.map (fun p => (p.2, placeholderOf p.1))) k = some v)) := by
  have hloop := make_maps_loop_eq specs bs [] [] hp
  unfold make_maps at hm
  rw [hloop] at hm
  simp only [Except.map] at hm
  injection hm with hm
  rw [Prod.mk.injEq] at hm
  obtain ⟨h1, h2⟩ := hm
  subst h1
  subst h2
  have hfa : bs.foldl (fun d p => dictInsert d p.2 (placeholderOf p.1)) [] =
      (bs.map (fun p => (p.2, placeholderOf p.1))).foldl
        (fun d p => dictInsert d p.1 p.2) [] := by
    rw [List.foldl_map]
  have hfb : bs.foldl (fun d p => dictInsert d (placeholderOf p.1) p.2) [] =
      (bs.map (fun p => (placeholderOf p.1, p.2))).foldl
        (fun d p => dictInsert d p.1 p.2) [] := by
    rw [List.foldl_map]
  constructor
  · constructor
    · rw [hfb]
      exact (List.Perm.nodup_iff
          ((List.perm_insertionSort lenGE _).map Prod.fst)).mpr
        (foldl_dictInsert_nodup _ [] List.nodup_nil)
    · intro k v
      rw [List.mem_insertionSort, hfb, mem_pyDict_iff_lastVal]
  · constructor
    · rw [hfa]
      exact (List.Perm.nodup_iff
          ((List.perm_insertionSort lenGE _).map Prod.fst)).mpr
        (foldl_dictInsert_nodup _ [] List.nodup_nil)
    · intro k v
      rw [List.mem_insertionSort, hfa, mem_pyDict_iff_lastVal]

theorem C7_witness :
    (([(placeholderOf ("a"), ("y"))].map Prod.fst).Nodup ∧
      ∀ k v, ((k, v) ∈ [(placeholderOf ("a"), ("y"))] ↔
        lastVal ([(("a"), ("x")), (("a"), ("y"))].map
          (fun p => (placeholderOf p.1, p.2))) k = some v)) ∧
    (([(("x"), placeholderOf ("a")), (("y"), placeholderOf ("a"))].map Prod.fst).Nodup ∧
      ∀ k v, ((k, v) ∈ [(("x"), placeholderOf ("a")), (("y"), placeholderOf ("a"))] ↔
        lastVal ([(("a"), ("x")), (("a"), ("y"))].map
          (fun p => (p.2, placeholderOf p.1))) k = some v)) :=
  C7_last_wins_amended [("a=x"), ("a=y")] [(("a"), ("x")), (("a"), ("y"))]
    [(("x"), placeholderOf ("a")), (("y"), placeholderOf ("a"))]
    [(placeholderOf ("a"), ("y"))] rfl rfl

/-- C7 counterexample: binding the name a twice, to x and then to y,
leaves TWO entries in the render-to-template table — both x and y map
to the placeholder of a — so the table does not contain exactly one
entry for that name as the claim states (the template-to-render table,
by contrast, does collapse to the single last binding). -/
theorem C7_counterexample :
    (make_maps [("a=x"), ("a=y")]).toOption =
      some ([(("x"), placeholderOf ("a")), (("y"), placeholderOf ("a"))],
            [(placeholderOf ("a"), ("y"))]) ∧
    ¬ (([(("x"), placeholderOf ("a")), (("y"), placeholderOf ("a"))].countP
        (fun q => q.2 == placeholderOf ("a"))) = 1) := by decide

/-! ### Claim C6: idempotence -/

/-- An expanded file is settled with respect to a template tree when
reconciling it can change nothing: either its translated path has no
counterpart, or it is README-exempt, or the counterpart already
carries the reconciled content (equal bytes in the binary case, the
substituted text in the text case). -/
def settled (m : List (String × String)) (tpl : Fs) (e : RelPath × File) : Prop :=
  ∀ tf, lookupA tpl (relpath_substitute e.1 m) = some tf →
    e.1.getLast? = some ("README.md") ∨
    (is_binary e.2 = true ∧ e.2.readErr = false ∧
      tf.readErr = false ∧ tf.bytes = e.2.bytes) ∨
    (is_binary e.2 = false ∧
      ∃ s, read_text e.2 = .ok s ∧ read_text tf = .ok (substitute s m))

theorem settled_congr (m : List (String × String)) (tpl tpl' : Fs)
    (e : RelPath × File)
    (hlk : lookupA tpl' (relpath_substitute e.1 m) =
      lookupA tpl (relpath_substitute e.1 m))
    (hs : settled m tpl e) : settled m tpl' e :=
  fun tf h => hs tf (by rw [← hlk]; exact h)

theorem passState_append_nil (st : PassState) :
    { st with unmapped := st.unmapped ++ [] } = st := by
  cases st
  simp

/-- A step on a settled file is a no-op up to unmapped reporting. -/
theorem step_of_settled (m : List (String × String)) (d : Bool) (st : PassState)
    (e : RelPath × File) (hs : settled m st.tpl e) :
    ∃ ext, step m d st e = .ok { st with unmapped := st.unmapped ++ ext } := by
  cases hl : lookupA st.tpl (relpath_substitute e.1 m) with
  | none =>
    by_cases hc : (".venv") ∉ e.1 ∧ (".mypy_cache") ∉ e.1
    · exact ⟨[e.1], by rw [step_eq_none m d st e hl, if_pos hc]⟩
    · exact ⟨[], by rw [step_eq_none m d st e hl, if_neg hc, passState_append_nil]⟩
  | some tf =>
    by_cases hr : e.1.getLast? = some ("README.md")
    · exact ⟨[], by rw [step_eq_some m d st e tf hl, if_pos hr, passState_append_nil]⟩
    · refine ⟨[], ?_⟩
      rw [step_eq_some m d st e tf hl, if_neg hr, passState_append_nil]
      rcases hs tf hl with h1 | ⟨hb, he, ht, hbs⟩ | ⟨hb, s, he, ht⟩
      · exact absurd h1 hr
      · exact reconcile_bin_noop m d st _ e.2 tf hb he ht hbs
      · exact reconcile_text_noop m d st _ e.2 tf s hb he ht

/-- After its own successful non-preview step, a file is settled. -/
theorem step_settled_post (m : List (String × String)) (st : PassState)
    (e : RelPath × File) (st' : PassState) (h : step m false st e = .ok st') :
    settled m st'.tpl e := by
  intro tf' hlook'
  cases hl : lookupA st.tpl (relpath_substitute e.1 m) with
  | none =>
    rw [step_eq_none m false st e hl] at h
    have htpl : st'.tpl = st.tpl := by
      by_cases hc : (".venv") ∉ e.1 ∧ (".mypy_cache") ∉ e.1
      · rw [if_pos hc] at h
        injection h with h
        subst h
        rfl
      · rw [if_neg hc] at h
        injection h with h
        subst h
        rfl
    rw [htpl, hl] at hlook'
    exact Option.noConfusion hlook'
  | some tf =>
    by_cases hr : e.1.getLast? = some ("README.md")
    · exact Or.inl hr
    · rw [step_eq_some m false st e tf hl, if_neg hr] at h
      have hpost := reconcile_post m st (relpath_substitute e.1 m) e.2 tf st' hl h
      by_cases hb : is_binary e.2 = true
      · obtain ⟨hee, tf'', hl'', hre, hbs⟩ := hpost.1 hb
        rw [hl''] at hlook'
        injection hlook' with hlook'
        subst hlook'
        exact Or.inr (Or.inl ⟨hb, hee, hre, hbs⟩)
      · have hbf : is_binary e.2 = false := Bool.eq_false_iff.mpr hb
        obtain ⟨s, tf'', hrs, hl'', hrt⟩ := hpost.2 hbf
        rw [hl''] at hlook'
        injection hlook' with hlook'
        subst hlook'
        exact Or.inr (Or.inr ⟨hbf, s, hrs, hrt⟩)

/-- When pass 1 completes and no two expanded files translate to the
same template path, every walked file is settled with respect to the
final template tree. -/
theorem pass1_settled_all (m : List (String × String))
    (es : List (RelPath × File)) (st st' : PassState)
    (hnd : (es.map (fun e => relpath_substitute e.1 m)).Nodup)
    (hp : pass1 m false st es = (st', false)) :
    ∀ e ∈ es, settled m st'.tpl e := by
  induction es generalizing st with
  | nil => exact fun e he => absurd he (List.not_mem_nil e)
  | cons e0 rest ih =>
    rw [List.map_cons, List.nodup_cons] at hnd
    cases hs : step m false st e0 with
    | error u =>
      rw [pass1_cons_err m false st e0 rest u hs] at hp
      exact absurd (congrArg Prod.snd hp) (by simp)
    | ok st₁ =>
      rw [pass1_cons_ok m false st st₁ e0 rest hs] at hp
      intro e he
      rcases List.mem_cons.mp he with rfl | he
      · have hset := step_settled_post m st e st₁ hs
        have hst' : st' = (pass1 m false st₁ rest).1 := by rw [hp]
        refine settled_congr m st₁.tpl st'.tpl e ?_ hset
        rw [hst']
        exact pass1_untouched m false rest st₁ _ hnd.1
      · exact ih st₁ hnd.2 hp e he

/-- Pass 1 over a list of files all settled with respect to the
current template tree changes nothing: no write, no event; only the
unmapped report is rebuilt. -/
theorem pass1_of_settled (m : List (String × String)) (d : Bool)
    (es : List (RelPath × File)) (st : PassState)
    (hs : ∀ e ∈ es, settled m st.tpl e) :
    ∃ u, pass1 m d st es =
      ({ tpl := st.tpl, events := st.events, unmapped := u }, false) := by
  induction es generalizing st with
  | nil => exact ⟨st.unmapped, rfl⟩
  | cons e0 rest ih =>
    obtain ⟨ext, hstep⟩ := step_of_settled m d st e0 (hs e0 (List.mem_cons_self e0 rest))
    obtain ⟨u, hp⟩ := ih { st with unmapped := st.unmapped ++ ext }
      (fun e he => hs e (List.mem_cons_of_mem e0 he))
    exact ⟨u, by rw [pass1_cons_ok m d st _ e0 rest hstep, hp]⟩

/-- C6 as amended: the sync is idempotent provided no two expanded
files translate to the same template path (with a collision, the
second run re-applies the colliding writes).  Under that hypothesis,
after a completed non-preview run, a second non-preview run with the
same inputs performs no action at all: it prints nothing, writes
nothing — for every reconciled file the candidate content computed in
the second run already equals the template content left by the first —
and it completes without error. -/
theorem C6_idempotent_amended (render2tpl tpl2render : List (String × String))
    (tpl expDir : Fs)
    (hnd : (expDir.map (fun e => relpath_substitute e.1 render2tpl)).Nodup)
    (hc : (sync render2tpl tpl2render tpl expDir false).crashed = false) :
    (sync render2tpl tpl2render
        (sync render2tpl tpl2render tpl expDir false).tpl expDir false).events = [] ∧
    (sync render2tpl tpl2render
        (sync render2tpl tpl2render tpl expDir false).tpl expDir false).tpl =
      (sync render2tpl tpl2render tpl expDir false).tpl ∧
    (sync render2tpl tpl2render
        (sync render2tpl tpl2render tpl expDir false).tpl expDir false).crashed =
      false := by
  rw [sync_crashed] at hc
  rcases hp : pass1 render2tpl false
      { tpl := tpl, events := [], unmapped := [] } expDir with ⟨st1, b⟩
  rw [hp] at hc
  have hb : b = false := hc
  subst hb
  have htpl1 : (sync render2tpl tpl2render tpl expDir false).tpl = st1.tpl := by
    rw [sync_tpl, hp]
  have hsettled := pass1_settled_all render2tpl expDir _ st1 hnd hp
  obtain ⟨u, hp2⟩ := pass1_of_settled render2tpl false expDir
    { tpl := st1.tpl, events := [], unmapped := [] }
    (fun e he => hsettled e he)
  rw [htpl1]
  refine ⟨?_, ?_, ?_⟩
  · rw [sync_events, hp2]
  · rw [sync_tpl, hp2]
  · rw [sync_crashed, hp2]

def C6Wtpl : Fs := [([("a.txt")], textFile ("old"))]
def C6Wexp : Fs := [([("a.txt")], textFile ("zzz new"))]

theorem C6_witness :
    (sync [(("zzz"), placeholderOf ("slug"))] [(placeholderOf ("slug"), ("zzz"))]
        (sync [(("zzz"), placeholderOf ("slug"))] [(placeholderOf ("slug"), ("zzz"))]
          C6Wtpl C6Wexp false).tpl C6Wexp false).events = [] ∧
    (sync [(("zzz"), placeholderOf ("slug"))] [(placeholderOf ("slug"), ("zzz"))]
        (sync [(("zzz"), placeholderOf ("slug"))] [(placeholderOf ("slug"), ("zzz"))]
          C6Wtpl C6Wexp false).tpl C6Wexp false).tpl =
      (sync [(("zzz"), placeholderOf ("slug"))] [(placeholderOf ("slug"), ("zzz"))]
        C6Wtpl C6Wexp false).tpl ∧
    (sync [(("zzz"), placeholderOf ("slug"))] [(placeholderOf ("slug"), ("zzz"))]
        (sync [(("zzz"), placeholderOf ("slug"))] [(placeholderOf ("slug"), ("zzz"))]
          C6Wtpl C6Wexp false).tpl C6Wexp false).crashed = false :=
  C6_idempotent_amended [(("zzz"), placeholderOf ("slug"))]
    [(placeholderOf ("slug"), ("zzz"))] C6Wtpl C6Wexp (by decide) (by decide)

def C6tpl : Fs := [([placeholderOf ("slug") ++ (".txt")], textFile ("Z"))]
def C6exp : Fs :=
  [([("calc.txt")], textFile ("A")),
   ([placeholderOf ("slug") ++ (".txt")], textFile ("B"))]
def C6tpl1 : Fs := [([placeholderOf ("slug") ++ (".txt")], text_written ("B"))]

/-- C6 counterexample: with binding slug=calc, the expanded files
calc.txt and (literally) the slug placeholder dot txt both translate
to the same template path.  The first run completes and leaves that
template file holding B; the second run, on unchanged inputs, again
prints two diffs and performs two writes — its event trace is not
empty — so the claim's unconditional "zero content changes in the
second run" is false. -/
theorem C6_counterexample :
    (runSync [("slug=calc")] C6tpl C6exp false).toOption.map
        (fun r => (r.tpl, r.crashed)) = some (C6tpl1, false) ∧
    (runSync [("slug=calc")] C6tpl1 C6exp false).toOption.map RunResult.events =
      some [Event.printDiff [placeholderOf ("slug") ++ (".txt")] ("B") ("A"),
            Event.writeText [placeholderOf ("slug") ++ (".txt")] ("A"),
            Event.printDiff [placeholderOf ("slug") ++ (".txt")] ("A") ("B"),
            Event.writeText [placeholderOf ("slug") ++ (".txt")] ("B")] ∧
    ([Event.printDiff [placeholderOf ("slug") ++ (".txt")] ("B") ("A"),
      Event.writeText [placeholderOf ("slug") ++ (".txt")] ("A"),
      Event.printDiff [placeholderOf ("slug") ++ (".txt")] ("A") ("B"),
      Event.writeText [placeholderOf ("slug") ++ (".txt")] ("B")] ≠
        ([] : List Event)) := by decide
